import Mathlib

/-
Shallow embedding of the session-reconstruction core of the RDP-Timeline
repository (src/timeline.py, class RDPTimelineBuilder).

Modelling conventions:
  * Timestamps are natural numbers counting minutes (datetime values are
    bounded below, so Nat with 0 playing the role of datetime.min is
    order-faithful; the timedelta constants are 5, 15 and 60 minutes).
  * Python dicts for events and sessions become structures; the mutable
    "_correlation" field written through shared references is modelled as a
    list of optional tags parallel to the timeline, indexed by event
    position, so that aliasing between the timeline and the sessions'
    member lists is explicit.
  * Sessions hold the indices of their member events.
  * The bare try/except around datetime.fromisoformat is modelled by an
    abstract parsing function returning Option; every function here is
    total, which is the embedding of the code's no-raise discipline.
  * Truthiness of Python strings: None and the empty string are falsy in
    the or-chains used for field extraction; details values may be None
    (d.text), hence Option String values in the details association list.
-/

/-- Correlation tags written by the engine (the "_correlation" field). -/
inductive Corr where
  | in_session : Corr
  | grace_before : Corr
  | grace_after : Corr
deriving DecidableEq, Repr

/-- A normalized event record as produced by the upstream parser. -/
structure Event where
  event_id : String
  event_name : String := ""
  timestamp : Option String := none
  parsed_time : Option Nat := none
  source : String := ""
  details : List (String × Option String) := []
deriving DecidableEq, Repr

/-- A reconstructed session record; `events` holds timeline indices. -/
structure Session where
  start_time : Nat
  end_time : Option Nat
  start_reason : String
  end_reason : Option String
  user : Option String
  source_ip : Option String
  events : List Nat
deriving DecidableEq, Repr

/-- GRACE_BEFORE = timedelta(minutes=5). -/
def GRACE_BEFORE : Nat := 5

/-- GRACE_AFTER = timedelta(minutes=15). -/
def GRACE_AFTER : Nat := 15

/-- INACTIVITY_TIMEOUT = timedelta(minutes=60). -/
def INACTIVITY_TIMEOUT : Nat := 60

/-- The _parse_timestamp fallback: None input (AttributeError on .replace,
caught by the bare except) yields None; otherwise the abstract ISO parser
runs on the string with "Z" replaced by "+00:00". -/
def parse_timestamp (fromiso : String → Option Nat) (ts : Option String) : Option Nat :=
  match ts with
  | none => none
  | some s => fromiso (s.replace "Z" "+00:00")

/-- The normalization step of build_timeline: events whose parsed_time is
None (falsy) get it recomputed from the raw timestamp. -/
def normEvent (fromiso : String → Option Nat) (ev : Event) : Event :=
  if ev.parsed_time.isSome then ev
  else { ev with parsed_time := parse_timestamp fromiso ev.timestamp }

/-- The sort key of build_timeline: x.get("parsed_time") or datetime.min,
with datetime.min embedded as 0. -/
def sortKey (ev : Event) : Nat :=
  ev.parsed_time.getD 0

/-- The comparison the Timeline Sorter orders by. -/
def keyLE (a b : Event) : Prop :=
  sortKey a ≤ sortKey b

instance : DecidableRel keyLE := fun a b => Nat.decLe (sortKey a) (sortKey b)

instance : IsTotal Event keyLE := ⟨fun a b => Nat.le_total (sortKey a) (sortKey b)⟩

instance : IsTrans Event keyLE := ⟨fun _ _ _ h h' => Nat.le_trans h h'⟩

/-- The Timeline Sorter: Python's sorted() is a stable sort, embedded as
insertion sort (stable sorts agree extensionally). -/
def sortTimeline (l : List Event) : List Event :=
  l.insertionSort keyLE

/-- build_timeline: normalize parsed_time on every raw event, then sort
chronologically with missing times as datetime.min. -/
def build_timeline (fromiso : String → Option Nat) (raw : List Event) : List Event :=
  sortTimeline (raw.map (normEvent fromiso))

/-- details.get(k): key absent, or present with value None, gives None. -/
def getDetail (details : List (String × Option String)) (k : String) : Option String :=
  (details.lookup k).bind id

/-- Python `a or b` on optional strings: None and "" are falsy. -/
def orElseTruthy (a b : Option String) : Option String :=
  match a with
  | some v => if v = "" then b else some v
  | none => b

/-- Best-effort user extraction or-chain of build_sessions. -/
def extractUser (details : List (String × Option String)) : Option String :=
  orElseTruthy (getDetail details "TargetUserName")
    (orElseTruthy (getDetail details "SubjectUserName")
      (orElseTruthy (getDetail details "User")
        (orElseTruthy (getDetail details "AccountName")
          (getDetail details "Param1"))))

/-- Best-effort source IP extraction or-chain of build_sessions. -/
def extractIp (details : List (String × Option String)) : Option String :=
  orElseTruthy (getDetail details "IpAddress")
    (orElseTruthy (getDetail details "ClientAddress")
      (orElseTruthy (getDetail details "SourceNetworkAddress")
        (orElseTruthy (getDetail details "Address")
          (getDetail details "Param3"))))

/-- State threaded through the build_sessions scan: the output list, the
open session, last_event_time, and the correlation tags (indexed by
timeline position, None when unset). -/
structure BState where
  sessions : List Session
  current : Option Session
  last : Option Nat
  corrs : List (Option Corr)
deriving DecidableEq, Repr

/-- Closing a session: set end_time and end_reason. -/
def closeWith (cs : Session) (e : Nat) (reason : String) : Session :=
  { cs with end_time := some e, end_reason := some reason }

/-- The inactivity check at the top of the loop body: if a session is open
and a previous event time exists and t - last_event_time exceeds the
timeout, close the open session with end_time = last_event_time. -/
def inactivityClose (st : BState) (t : Nat) : BState :=
  match st.current, st.last with
  | some cs, some lt =>
      if t - lt > INACTIVITY_TIMEOUT then
        { st with sessions := st.sessions ++ [closeWith cs lt "inactivity_timeout"],
                  current := none }
      else st
  | _, _ => st

/-- The event dispatch of the loop body, after the inactivity check and the
last_event_time update: event 21 closes any open session (overlapping
start) and opens a new one seeded with this event; otherwise an open
session absorbs the event, closing on 24/4634. -/
def handleEvent (st : BState) (i : Nat) (ev : Event) (t : Nat) : BState :=
  if ev.event_id = "21" then
    let st1 :=
      match st.current with
      | some cs =>
          { st with sessions := st.sessions ++ [closeWith cs t "overlapping_session_start"],
                    current := none }
      | none => st
    { st1 with
      corrs := st1.corrs.set i (some Corr.in_session),
      current := some
        { start_time := t
          end_time := none
          start_reason := "lsm_session_start"
          end_reason := none
          user := extractUser ev.details
          source_ip := extractIp ev.details
          events := [i] } }
  else
    match st.current with
    | some cs =>
        let cs1 : Session := { cs with events := cs.events ++ [i] }
        if ev.event_id = "24" ∨ ev.event_id = "4634" then
          { st with
            corrs := st.corrs.set i (some Corr.in_session),
            sessions := st.sessions ++ [closeWith cs1 t "explicit_logoff"],
            current := none }
        else
          { st with
            corrs := st.corrs.set i (some Corr.in_session),
            current := some cs1 }
    | none => st

/-- One iteration of the build_sessions loop on event ev at timeline
index i: events without a parsed time are skipped entirely. -/
def sessStep (st : BState) (i : Nat) (ev : Event) : BState :=
  match ev.parsed_time with
  | none => st
  | some t =>
      let st1 := inactivityClose st t
      let st2 := { st1 with last := some t }
      handleEvent st2 i ev t

/-- The scan over the indexed timeline. -/
def sessRun (st : BState) : List (Nat × Event) → BState
  | [] => st
  | p :: rest => sessRun (sessStep st p.1 p.2) rest

/-- The starting state of the build_sessions scan: no sessions, no open
session, no last_event_time, no correlation tag set. -/
def initState (timeline : List Event) : BState :=
  { sessions := [], current := none, last := none,
    corrs := List.replicate timeline.length none }

/-- The session-building scan of build_sessions (before the end-of-log
close and the grace pass). -/
def session_phase (timeline : List Event) : BState :=
  sessRun (initState timeline) timeline.enum

/-- Close any session left open at end of logs, with end_time =
last_event_time and end_reason session_open_at_log_end. -/
def closeTail (st : BState) : BState :=
  match st.current with
  | some cs =>
      { st with
        sessions := st.sessions ++
          [{ cs with end_time := st.last, end_reason := some "session_open_at_log_end" }],
        current := none }
  | none => st

/-- The administratively significant event ids of the grace pass. -/
def dfirIds : List String :=
  ["4720", "4722", "4724", "4728", "4732", "4698", "7045", "1102"]

/-- Membership of an event in the DFIR id set. -/
def inDfir (ev : Event) : Bool :=
  dfirIds.contains ev.event_id

/-- The grace window containment test of the correlation pass. -/
def windowP (s : Session) (t : Nat) : Prop :=
  s.start_time - GRACE_BEFORE ≤ t ∧ t ≤ (s.end_time.getD s.start_time) + GRACE_AFTER

instance (s : Session) (t : Nat) : Decidable (windowP s t) :=
  inferInstanceAs (Decidable (_ ∧ _))

/-- The inner loop of the grace pass for one DFIR event (timeline index i,
time t): append it to the first session whose extended window contains t,
break, and report the tag to write (None when no window matched). -/
def graceAttachOne : List Session → Nat → Nat → List Session × Option Corr
  | [], _, _ => ([], none)
  | s :: rest, i, t =>
      if windowP s t then
        ({ s with events := s.events ++ [i] } :: rest,
         some (if t < s.start_time then Corr.grace_before else Corr.grace_after))
      else
        let r := graceAttachOne rest i t
        (s :: r.1, r.2)

/-- One iteration of the outer grace loop: events without a parsed time
are skipped; otherwise attach and record the correlation tag. -/
def graceStep (acc : List Session × List (Option Corr)) (p : Nat × Event) :
    List Session × List (Option Corr) :=
  match p.2.parsed_time with
  | none => acc
  | some t =>
      match graceAttachOne acc.1 p.1 t with
      | (ss, none) => (ss, acc.2)
      | (ss, some c) => (ss, acc.2.set p.1 (some c))

/-- The dfir_events selection: timeline events whose id is in the DFIR
set, kept with their timeline indices. -/
def dfirList (timeline : List Event) : List (Nat × Event) :=
  timeline.enum.filter (fun p => inDfir p.2)

/-- The grace-correlation pass over the built session list. -/
def gracePass (timeline : List Event) (ss : List Session) (cs : List (Option Corr)) :
    List Session × List (Option Corr) :=
  (dfirList timeline).foldl graceStep (ss, cs)

/-- build_sessions: the session-building scan, the end-of-log close, then
the grace-correlation pass; returns the session list and the final
correlation tags. -/
def build_sessions (timeline : List Event) : List Session × List (Option Corr) :=
  let st := closeTail (session_phase timeline)
  gracePass timeline st.sessions st.corrs

/-- Total number of occurrences of timeline index j across all sessions'
member lists. -/
def occCount (ss : List Session) (j : Nat) : Nat :=
  (ss.map (fun s => s.events.count j)).sum

/-- Occurrences of index j in the whole builder state: closed sessions
plus the open one. -/
def stCount (st : BState) (j : Nat) : Nat :=
  occCount st.sessions j +
    (match st.current with
     | some cs => cs.events.count j
     | none => 0)

/-- The four end reasons a closed session can carry. -/
def endReasons : List String :=
  ["explicit_logoff", "overlapping_session_start", "inactivity_timeout",
   "session_open_at_log_end"]

/-- Example: an authoritative session start at minute 1000. -/
def exStart : Event := { event_id := "21", parsed_time := some 1000 }

/-- Example: a privileged-group-add (DFIR id) at minute 1001. -/
def exDfir : Event := { event_id := "4732", parsed_time := some 1001 }

/-- Example: a logon event at minute 1001. -/
def exLogon : Event := { event_id := "4624", parsed_time := some 1001 }

/-- Example: an explicit disconnect at minute 1010. -/
def exLogoff : Event := { event_id := "24", parsed_time := some 1010 }

/-- Example: a logon event at minute 1120 (after a long gap). -/
def exLate : Event := { event_id := "4624", parsed_time := some 1120 }

/-- Example: a second session start at minute 1005. -/
def exStart2 : Event := { event_id := "21", parsed_time := some 1005 }

/-- Example: a session-start event whose timestamp failed to parse. -/
def exNoTs : Event := { event_id := "21", timestamp := some "garbage" }

/-- Builder state after scanning the two events of Scenario B's session,
inside a three-event timeline. -/
def stB : BState :=
  sessRun
    { sessions := [], current := none, last := none, corrs := List.replicate 3 none }
    [(0, exStart), (1, exLogon)]

/-- The open session held in stB. -/
def csB : Session :=
  { start_time := 1000, end_time := none, start_reason := "lsm_session_start",
    end_reason := none, user := none, source_ip := none, events := [0, 1] }

/-- Builder state after scanning the first event of Scenario C, inside a
two-event timeline. -/
def stC : BState :=
  sessRun
    { sessions := [], current := none, last := none, corrs := List.replicate 2 none }
    [(0, exStart)]

/-- The open session held in stC. -/
def csC : Session :=
  { start_time := 1000, end_time := none, start_reason := "lsm_session_start",
    end_reason := none, user := none, source_ip := none, events := [0] }

/-- Example closed session starting at minute 2000. -/
def sLater : Session :=
  { start_time := 2000, end_time := some 2010, start_reason := "lsm_session_start",
    end_reason := some "explicit_logoff", user := none, source_ip := none,
    events := [3] }

/-- Example closed session starting at minute 1000. -/
def sEarlier : Session :=
  { start_time := 1000, end_time := some 1010, start_reason := "lsm_session_start",
    end_reason := some "explicit_logoff", user := none, source_ip := none,
    events := [0] }

/-- Number of sessions in the builder state, the open one included. -/
def stLen (st : BState) : Nat :=
  st.sessions.length +
    (match st.current with
     | some _ => 1
     | none => 0)

/-- A well-formed closed session: end_time is set and not before
start_time, and end_reason is one of the four defined values. -/
def goodSession (s : Session) : Prop :=
  (∃ e, s.end_time = some e ∧ s.start_time ≤ e) ∧
  ∃ r, s.end_reason = some r ∧ r ∈ endReasons

/-- Invariant of the session-building scan: all emitted sessions are
well-formed and closed, and an open session started no later than
last_event_time. -/
def InvB (st : BState) : Prop :=
  (∀ s ∈ st.sessions, goodSession s) ∧
  (∀ cs, st.current = some cs → ∃ lt, st.last = some lt ∧ cs.start_time ≤ lt)

/-- Frame relation of the grace pass on a single session: every field is
unchanged except the member list, which is only extended, and only by
indices of timestamped DFIR events of the timeline. -/
def sessExt (timeline : List Event) (s s' : Session) : Prop :=
  s'.start_time = s.start_time ∧ s'.end_time = s.end_time ∧
  s'.start_reason = s.start_reason ∧ s'.end_reason = s.end_reason ∧
  s'.user = s.user ∧ s'.source_ip = s.source_ip ∧
  ∃ suf, s'.events = s.events ++ suf ∧
    ∀ j ∈ suf, ∃ ev, timeline[j]? = some ev ∧ ev.parsed_time.isSome ∧ inDfir ev = true

/-- Stability kernel: ordered insertion keeps each key class intact,
prepending the new element exactly to its own class. -/
theorem filter_orderedInsert (a : Event) (k : Nat) (l : List Event) :
    (l.orderedInsert keyLE a).filter (fun e => sortKey e == k)
      = if sortKey a = k then a :: l.filter (fun e => sortKey e == k)
        else l.filter (fun e => sortKey e == k) := by
  induction l with
  | nil =>
      by_cases h : sortKey a = k <;>
        simp [List.orderedInsert, List.filter_singleton, h]
  | cons b l ih =>
      by_cases hab : keyLE a b
      · by_cases h : sortKey a = k <;>
          simp [List.orderedInsert, hab, List.filter_cons, h]
      · have hba : sortKey b < sortKey a := by
          simpa [keyLE, Nat.not_le] using hab
        by_cases h : sortKey a = k
        · have hbk : ¬ sortKey b = k := by omega
          simp [List.orderedInsert, hab, List.filter_cons, h, hbk, ih]
        · by_cases hbk : sortKey b = k <;>
            simp [List.orderedInsert, hab, List.filter_cons, h, hbk, ih]

/-- The Timeline Sorter preserves each key class in order (stability). -/
theorem sortTimeline_stable (l : List Event) (k : Nat) :
    (sortTimeline l).filter (fun e => sortKey e == k)
      = l.filter (fun e => sortKey e == k) := by
  induction l with
  | nil => rfl
  | cons a l ih =>
      have : sortTimeline (a :: l) = (sortTimeline l).orderedInsert keyLE a := rfl
      rw [this, filter_orderedInsert]
      by_cases h : sortKey a = k <;> simp [List.filter_cons, h, ih]

/-- Sorting an already-sorted timeline changes nothing. -/
theorem sortTimeline_idem (l : List Event) :
    sortTimeline (sortTimeline l) = sortTimeline l :=
  List.Sorted.insertionSort_eq (List.sorted_insertionSort keyLE l)

/-- C9: the Timeline Sorter is stable — records with equal (or missing,
hence key-0) timestamps keep their original relative order, expressed as
preservation of every key class — and idempotent: re-sorting its own
output is the identity. -/
theorem claim_C9 (l : List Event) (k : Nat) :
    (sortTimeline l).filter (fun e => sortKey e == k)
      = l.filter (fun e => sortKey e == k)
    ∧ sortTimeline (sortTimeline l) = sortTimeline l :=
  ⟨sortTimeline_stable l k, sortTimeline_idem l⟩

/-- C3: build_timeline followed by build_sessions is total (the embedding
of "never raises"): the sorted timeline is a permutation of the
normalized input — events lacking a timestamp are kept — it is sorted by
the key that maps a missing time to the minimum 0, and every event
without a parsed time carries that minimal key, hence sorts first. -/
theorem claim_C3 (fromiso : String → Option Nat) (raw : List Event) :
    (build_timeline fromiso raw).Perm (raw.map (normEvent fromiso))
    ∧ List.Sorted keyLE (build_timeline fromiso raw)
    ∧ (∀ ev ∈ build_timeline fromiso raw, ev.parsed_time = none → sortKey ev = 0)
    ∧ ∃ out, build_sessions (build_timeline fromiso raw) = out := by
  refine ⟨List.perm_insertionSort keyLE _, List.sorted_insertionSort keyLE _, ?_, _, rfl⟩
  intro ev _ h
  simp [sortKey, h]

/-- Witness for C3 at a concrete input: a failing parser and a mixed
two-event collection; the unparseable event is kept and sorts first. -/
theorem claim_C3_witness :
    exNoTs ∈ build_timeline (fun _ => none) [exStart, exNoTs]
    ∧ exNoTs.parsed_time = none
    ∧ sortKey exNoTs = 0
    ∧ build_timeline (fun _ => none) [exStart, exNoTs] = [exNoTs, exStart] :=
  ⟨by decide, rfl,
   (claim_C3 (fun _ => none) [exStart, exNoTs]).2.2.1 exNoTs (by decide) rfl,
   by decide⟩

/-- Counterexample to C1 as stated: on the two-event timeline
[21@1000, 4732@1001] the DFIR event (index 1) is attached in_session
during construction and appended again by the grace pass, so it occurs
twice in the single session's member list. -/
theorem claim_C1_cex :
    (build_sessions [exStart, exDfir]).1.map Session.events = [[0, 1, 1]]
    ∧ occCount (build_sessions [exStart, exDfir]).1 1 = 2 := by
  decide

/-- Counterexample to C2 as stated: on [21@1000, 4732@1001] the DFIR
event's tag is in_session after session construction and is overwritten
to grace_after by the grace pass. -/
theorem claim_C2_cex :
    (closeTail (session_phase [exStart, exDfir])).corrs.get? 1
      = some (some Corr.in_session)
    ∧ (build_sessions [exStart, exDfir]).2.get? 1
      = some (some Corr.grace_after) := by
  decide

/-- Counterexample to C4 as stated: a start-marker event without a parsed
timestamp is skipped entirely, so no session is opened for it. -/
theorem claim_C4_cex :
    exNoTs.event_id = "21"
    ∧ (build_sessions [exNoTs]).1 = [] := by
  decide

/-- C5: when a session is open and the current timestamped event arrives
more than the inactivity timeout after last_event_time, the loop body
closes the session first — with end_time = last_event_time and end_reason
inactivity_timeout — appending it to the output, and only then interprets
the current event from the closed (Idle) state; in particular the step
adds exactly that closed session to the output list. -/
theorem claim_C5 (st : BState) (i : Nat) (ev : Event) (cs : Session) (t lt : Nat)
    (hcur : st.current = some cs) (hlast : st.last = some lt)
    (ht : ev.parsed_time = some t) (hgap : t - lt > INACTIVITY_TIMEOUT) :
    sessStep st i ev
      = sessStep
          { st with sessions := st.sessions ++ [closeWith cs lt "inactivity_timeout"],
                    current := none } i ev
    ∧ (sessStep st i ev).sessions
      = st.sessions ++ [closeWith cs lt "inactivity_timeout"] := by
  constructor
  · simp [sessStep, ht, inactivityClose, hcur, hlast, hgap]
  · by_cases h21 : ev.event_id = "21" <;>
      simp [sessStep, ht, inactivityClose, hcur, hlast, hgap, handleEvent, h21]

/-- Witness for C5, Scenario B: after [21@1000, 4624@1001] the next event
at minute 1120 triggers the inactivity close: the session is emitted with
end_time 1001 (the last activity time) and end_reason inactivity_timeout,
and the whole run of build_sessions on the three events produces exactly
that closed session. -/
theorem claim_C5_witness :
    stB.current = some csB
    ∧ stB.last = some 1001
    ∧ exLate.parsed_time = some 1120
    ∧ 1120 - 1001 > INACTIVITY_TIMEOUT
    ∧ (sessStep stB 2 exLate).sessions
        = stB.sessions ++ [closeWith csB 1001 "inactivity_timeout"]
    ∧ (build_sessions [exStart, exLogon, exLate]).1
        = [{ csB with end_time := some 1001, end_reason := some "inactivity_timeout" }] :=
  ⟨by decide, by decide, rfl, by decide,
   (claim_C5 stB 2 exLate csB 1120 1001 (by decide) (by decide) rfl (by decide)).2,
   by decide⟩

/-- C6: a start-marker event processed while a session is open (and not
closed by the inactivity check) closes the open session with end_time =
the current event's time and end_reason overlapping_session_start,
appends it, and opens a new session at the current event's time whose
member list is seeded with the event tagged in_session. -/
theorem claim_C6 (st : BState) (i : Nat) (ev : Event) (cs : Session) (t lt : Nat)
    (hcur : st.current = some cs) (hlast : st.last = some lt)
    (ht : ev.parsed_time = some t) (h21 : ev.event_id = "21")
    (hgap : t - lt ≤ INACTIVITY_TIMEOUT) :
    sessStep st i ev =
      { sessions := st.sessions ++ [closeWith cs t "overlapping_session_start"],
        current := some
          { start_time := t, end_time := none, start_reason := "lsm_session_start",
            end_reason := none, user := extractUser ev.details,
            source_ip := extractIp ev.details, events := [i] },
        last := some t,
        corrs := st.corrs.set i (some Corr.in_session) } := by
  have hg : ¬ (t - lt > INACTIVITY_TIMEOUT) := by omega
  simp [sessStep, ht, inactivityClose, hcur, hlast, hg, handleEvent, h21]

/-- Witness for C6, Scenario C: [21@1000] then [21@1005] with no logoff
between yields two sessions, the first closed at 1005 with end_reason
overlapping_session_start; the step equality is instantiated at the state
after the first event, and the full run confirms the two sessions. -/
theorem claim_C6_witness :
    stC.current = some csC
    ∧ stC.last = some 1000
    ∧ exStart2.parsed_time = some 1005
    ∧ exStart2.event_id = "21"
    ∧ 1005 - 1000 ≤ INACTIVITY_TIMEOUT
    ∧ sessStep stC 1 exStart2 =
        { sessions := [closeWith csC 1005 "overlapping_session_start"],
          current := some
            { start_time := 1005, end_time := none, start_reason := "lsm_session_start",
              end_reason := none, user := none, source_ip := none, events := [1] },
          last := some 1005,
          corrs := [some Corr.in_session, some Corr.in_session] }
    ∧ ((build_sessions [exStart, exStart2]).1.map
        (fun s => (s.start_time, s.end_time, s.end_reason)))
        = [(1000, some 1005, some "overlapping_session_start"),
           (1005, some 1005, some "session_open_at_log_end")] :=
  ⟨by decide, by decide, rfl, rfl, by decide,
   (claim_C6 stC 1 exStart2 csC 1005 1000 (by decide) (by decide) rfl rfl
     (by decide)).trans (by decide),
   by decide⟩

/-- First-match behaviour of the grace correlator on a session list with
no matching window: nothing is attached and no tag is produced. -/
theorem graceAttachOne_none (i t : Nat) :
    ∀ ss : List Session, (∀ s ∈ ss, ¬ windowP s t) →
      graceAttachOne ss i t = (ss, none) := by
  intro ss
  induction ss with
  | nil => intro _; rfl
  | cons s rest ih =>
      intro h
      have hs : ¬ windowP s t := h s (List.mem_cons_self s rest)
      have hrest := ih (fun s' hs' => h s' (List.mem_cons_of_mem s hs'))
      simp [graceAttachOne, hs, hrest]

/-- First-match behaviour of the grace correlator when the first matching
session sits after a non-matching block: exactly that session receives
the event, later sessions are untouched, and the tag is grace_before
exactly when the timestamp precedes its start_time. -/
theorem graceAttachOne_first (i t : Nat) (s : Session) (post : List Session) :
    ∀ pre : List Session, (∀ s' ∈ pre, ¬ windowP s' t) → windowP s t →
      graceAttachOne (pre ++ s :: post) i t =
        (pre ++ { s with events := s.events ++ [i] } :: post,
         some (if t < s.start_time then Corr.grace_before else Corr.grace_after)) := by
  intro pre
  induction pre with
  | nil => intro _ hw; simp [graceAttachOne, hw]
  | cons p pre ih =>
      intro hpre hw
      have hp : ¬ windowP p t := hpre p (List.mem_cons_self p pre)
      have := ih (fun s' hs' => hpre s' (List.mem_cons_of_mem p hs')) hw
      simp [graceAttachOne, hp, this]

/-- C7: for every built session list, a timestamped administratively
significant event is attached by the grace correlator to the first
session in list order whose extended window [start_time − 5, (end_time or
start_time) + 15] contains its time — later sessions are left untouched —
and is tagged grace_before exactly when its time is strictly below that
session's start_time, grace_after otherwise; when no session's window
contains the time, no session is changed and no tag is produced. -/
theorem claim_C7 (ss : List Session) (i t : Nat) :
    ((∀ s ∈ ss, ¬ windowP s t) → graceAttachOne ss i t = (ss, none))
    ∧ (∀ pre s post, ss = pre ++ s :: post →
        (∀ s' ∈ pre, ¬ windowP s' t) → windowP s t →
        graceAttachOne ss i t =
          (pre ++ { s with events := s.events ++ [i] } :: post,
           some (if t < s.start_time then Corr.grace_before else Corr.grace_after))) := by
  refine ⟨graceAttachOne_none i t ss, ?_⟩
  intro pre s post hss hpre hw
  rw [hss]
  exact graceAttachOne_first i t s post pre hpre hw

/-- Witness for C7: an event at minute 1001 against the session list
[sLater, sEarlier]: the first session's window [1995, 2025] misses it,
the second's [995, 1025] contains it, so it is appended to the second
session only and tagged grace_after (1001 is not before 1000). -/
theorem claim_C7_witness :
    (¬ windowP sLater 1001) ∧ windowP sEarlier 1001
    ∧ graceAttachOne [sLater, sEarlier] 7 1001 =
        ([sLater, { sEarlier with events := sEarlier.events ++ [7] }],
         some Corr.grace_after) :=
  ⟨by decide, by decide, by
    have h := (claim_C7 [sLater, sEarlier] 7 1001).2 [sLater] sEarlier [] rfl
      (by intro s' hs'; simp at hs'; subst hs'; decide) (by decide)
    simpa using h.trans (by decide)⟩

/-- The frame relation is reflexive. -/
theorem sessExt_refl (timeline : List Event) (s : Session) : sessExt timeline s s :=
  ⟨rfl, rfl, rfl, rfl, rfl, rfl, [], by simp, by simp⟩

/-- The frame relation is transitive. -/
theorem sessExt_trans {timeline : List Event} {a b c : Session}
    (h1 : sessExt timeline a b) (h2 : sessExt timeline b c) : sessExt timeline a c := by
  obtain ⟨e1, e2, e3, e4, e5, e6, suf1, hev1, hall1⟩ := h1
  obtain ⟨f1, f2, f3, f4, f5, f6, suf2, hev2, hall2⟩ := h2
  refine ⟨f1.trans e1, f2.trans e2, f3.trans e3, f4.trans e4, f5.trans e5, f6.trans e6,
    suf1 ++ suf2, by rw [hev2, hev1, List.append_assoc], ?_⟩
  intro j hj
  rcases List.mem_append.mp hj with h | h
  · exact hall1 j h
  · exact hall2 j h

/-- Elementwise reflexivity of the frame relation over a list. -/
theorem forall2_sessExt_refl (timeline : List Event) :
    ∀ l : List Session, List.Forall₂ (sessExt timeline) l l
  | [] => List.Forall₂.nil
  | s :: l => List.Forall₂.cons (sessExt_refl timeline s) (forall2_sessExt_refl timeline l)

/-- Transitivity of the elementwise frame relation. -/
theorem forall2_sessExt_trans {timeline : List Event} :
    ∀ {l1 l2 l3 : List Session}, List.Forall₂ (sessExt timeline) l1 l2 →
      List.Forall₂ (sessExt timeline) l2 l3 → List.Forall₂ (sessExt timeline) l1 l3 := by
  intro l1 l2 l3 h1
  induction h1 generalizing l3 with
  | nil => intro h2; cases h2; exact List.Forall₂.nil
  | cons h t ih =>
      intro h2
      cases h2 with
      | cons h' t' => exact List.Forall₂.cons (sessExt_trans h h') (ih t')

/-- A member of the right list of the elementwise frame relation has a
frame-related partner in the left list. -/
theorem forall2_sessExt_mem_right {timeline : List Event} :
    ∀ {l1 l2 : List Session}, List.Forall₂ (sessExt timeline) l1 l2 →
      ∀ s' ∈ l2, ∃ s ∈ l1, sessExt timeline s s' := by
  intro l1 l2 h
  induction h with
  | nil => intro s' hs'; cases hs'
  | cons h t ih =>
      intro s' hs'
      rcases List.mem_cons.mp hs' with rfl | hs'
      · exact ⟨_, List.mem_cons_self _ _, h⟩
      · obtain ⟨s, hsmem, hrel⟩ := ih s' hs'
        exact ⟨s, List.mem_cons_of_mem _ hsmem, hrel⟩

/-- The inner grace loop relates its input and output session lists by
the frame relation, given that the inserted index denotes a timestamped
DFIR event. -/
theorem graceAttachOne_ext (timeline : List Event) (i t : Nat) (ev : Event)
    (hget : timeline[i]? = some ev) (hts : ev.parsed_time.isSome)
    (hdf : inDfir ev = true) :
    ∀ ss : List Session, List.Forall₂ (sessExt timeline) ss (graceAttachOne ss i t).1 := by
  intro ss
  induction ss with
  | nil => exact List.Forall₂.nil
  | cons s rest ih =>
      by_cases hw : windowP s t
      · have hstep : (graceAttachOne (s :: rest) i t).1
            = { s with events := s.events ++ [i] } :: rest := by
          simp [graceAttachOne, hw]
        rw [hstep]
        refine List.Forall₂.cons ?_ (forall2_sessExt_refl timeline rest)
        exact ⟨rfl, rfl, rfl, rfl, rfl, rfl, [i], rfl, by
          intro j hj
          simp only [List.mem_singleton] at hj
          subst hj
          exact ⟨ev, hget, hts, hdf⟩⟩
      · have : graceAttachOne (s :: rest) i t
            = (s :: (graceAttachOne rest i t).1, (graceAttachOne rest i t).2) := by
          simp [graceAttachOne, hw]
        rw [this]
        exact List.Forall₂.cons (sessExt_refl timeline s) ih

/-- One outer grace iteration relates input and output session lists by
the frame relation, whenever the iterated pair comes from the DFIR
selection of the timeline. -/
theorem graceStep_ext (timeline : List Event) (acc : List Session × List (Option Corr))
    (p : Nat × Event) (hp : p ∈ dfirList timeline) :
    List.Forall₂ (sessExt timeline) acc.1 (graceStep acc p).1 := by
  have hmem : p ∈ timeline.enum ∧ inDfir p.2 = true := by
    have := List.mem_filter.mp hp
    exact ⟨this.1, this.2⟩
  have hget : timeline[p.1]? = some p.2 := by
    have := hmem.1
    rwa [List.mem_enum_iff_getElem?] at this
  cases ht : p.2.parsed_time with
  | none =>
      have hid : graceStep acc p = acc := by simp [graceStep, ht]
      rw [hid]
      exact forall2_sessExt_refl timeline acc.1
  | some t =>
      have hts : p.2.parsed_time.isSome := by simp [ht]
      have hext := graceAttachOne_ext timeline p.1 t p.2 hget hts hmem.2 acc.1
      rcases hres : graceAttachOne acc.1 p.1 t with ⟨ss, c⟩
      rw [hres] at hext
      cases c <;> simp [graceStep, ht, hres] <;> exact hext

/-- The grace fold relates input and output session lists by the frame
relation when every folded pair comes from the DFIR selection. -/
theorem graceFold_ext (timeline : List Event) :
    ∀ (l : List (Nat × Event)) (acc : List Session × List (Option Corr)),
      (∀ p ∈ l, p ∈ dfirList timeline) →
      List.Forall₂ (sessExt timeline) acc.1 (l.foldl graceStep acc).1 := by
  intro l
  induction l with
  | nil => intro acc _; exact forall2_sessExt_refl timeline acc.1
  | cons p rest ih =>
      intro acc h
      have h1 := graceStep_ext timeline acc p (h p (List.mem_cons_self p rest))
      have h2 := ih (graceStep acc p) (fun q hq => h q (List.mem_cons_of_mem p hq))
      exact forall2_sessExt_trans h1 (by simpa [List.foldl_cons] using h2)

/-- C10: the grace-correlation pass is frame-respecting: it returns a
session list of the same shape in which every session keeps its
start_time, end_time, start_reason, end_reason, user and source_ip, and
whose member list is only extended — and only by indices of events of the
timeline that have a parsed timestamp and an administratively significant
(DFIR) event id; in particular no event lacking a parsed timestamp is
ever attached. -/
theorem claim_C10 (timeline : List Event) (ss : List Session) (cs : List (Option Corr)) :
    List.Forall₂ (sessExt timeline) ss (gracePass timeline ss cs).1 :=
  graceFold_ext timeline (dfirList timeline) (ss, cs) (fun _ hp => hp)

/-- A skipped (timestamp-less) event leaves the builder state unchanged. -/
theorem sessStep_none_eq (st : BState) (i : Nat) (ev : Event)
    (ht : ev.parsed_time = none) : sessStep st i ev = st := by
  simp [sessStep, ht]

/-- The inactivity check emits only well-formed sessions, keeps
last_event_time, and can only preserve (never create) an open session. -/
theorem inactivityClose_inv (st : BState) (t : Nat) (hInv : InvB st) :
    (∀ s ∈ (inactivityClose st t).sessions, goodSession s)
    ∧ (inactivityClose st t).last = st.last
    ∧ (∀ cs, (inactivityClose st t).current = some cs → st.current = some cs) := by
  obtain ⟨ss, cur, la, co⟩ := st
  cases cur with
  | none => cases la <;> exact ⟨hInv.1, rfl, fun _ h => h⟩
  | some cs =>
      cases la with
      | none => exact ⟨hInv.1, rfl, fun _ h => h⟩
      | some lt =>
          by_cases hgap : t - lt > INACTIVITY_TIMEOUT
          · have hred : inactivityClose ⟨ss, some cs, some lt, co⟩ t
                = { sessions := ss ++ [closeWith cs lt "inactivity_timeout"],
                    current := none, last := some lt, corrs := co } := by
              simp [inactivityClose, hgap]
            rw [hred]
            refine ⟨?_, rfl, fun _ h => by cases h⟩
            intro s hs
            rcases List.mem_append.mp hs with h | h
            · exact hInv.1 s h
            · simp only [List.mem_singleton] at h
              subst h
              obtain ⟨lt', hlt', hstart⟩ := hInv.2 cs rfl
              injection hlt' with hlt'
              subst hlt'
              exact ⟨⟨lt, rfl, hstart⟩, "inactivity_timeout", rfl, by simp [endReasons]⟩
          · have hred : inactivityClose ⟨ss, some cs, some lt, co⟩ t
                = ⟨ss, some cs, some lt, co⟩ := by
              simp [inactivityClose, hgap]
            rw [hred]
            exact ⟨hInv.1, rfl, fun _ h => h⟩

/-- Reduction of the event dispatch: a start marker from the Idle state
opens a session seeded with the event, tagged in_session. -/
theorem handleEvent_21_none (ss : List Session) (la : Option Nat)
    (co : List (Option Corr)) (i : Nat) (ev : Event) (t : Nat)
    (h21 : ev.event_id = "21") :
    handleEvent ⟨ss, none, la, co⟩ i ev t
      = ⟨ss, some ⟨t, none, "lsm_session_start", none, extractUser ev.details,
          extractIp ev.details, [i]⟩, la, co.set i (some Corr.in_session)⟩ := by
  simp [handleEvent, h21]

/-- Reduction of the event dispatch: a start marker over an open session
closes it as overlapping_session_start and opens a fresh one. -/
theorem handleEvent_21_some (ss : List Session) (cs : Session) (la : Option Nat)
    (co : List (Option Corr)) (i : Nat) (ev : Event) (t : Nat)
    (h21 : ev.event_id = "21") :
    handleEvent ⟨ss, some cs, la, co⟩ i ev t
      = ⟨ss ++ [closeWith cs t "overlapping_session_start"],
         some ⟨t, none, "lsm_session_start", none, extractUser ev.details,
           extractIp ev.details, [i]⟩, la, co.set i (some Corr.in_session)⟩ := by
  simp [handleEvent, h21]

/-- Reduction of the event dispatch: a non-start event in the Idle state
is dropped from session membership. -/
theorem handleEvent_other_none (ss : List Session) (la : Option Nat)
    (co : List (Option Corr)) (i : Nat) (ev : Event) (t : Nat)
    (h21 : ¬ ev.event_id = "21") :
    handleEvent ⟨ss, none, la, co⟩ i ev t = ⟨ss, none, la, co⟩ := by
  simp [handleEvent, h21]

/-- Reduction of the event dispatch: a disconnect/logoff event absorbed
by an open session closes it as explicit_logoff. -/
theorem handleEvent_logoff (ss : List Session) (cs : Session) (la : Option Nat)
    (co : List (Option Corr)) (i : Nat) (ev : Event) (t : Nat)
    (h21 : ¬ ev.event_id = "21")
    (hoff : ev.event_id = "24" ∨ ev.event_id = "4634") :
    handleEvent ⟨ss, some cs, la, co⟩ i ev t
      = ⟨ss ++ [closeWith { cs with events := cs.events ++ [i] } t "explicit_logoff"],
         none, la, co.set i (some Corr.in_session)⟩ := by
  simp [handleEvent, h21, hoff]

/-- Reduction of the event dispatch: any other event absorbed by an open
session is appended to its member list, tagged in_session. -/
theorem handleEvent_attach (ss : List Session) (cs : Session) (la : Option Nat)
    (co : List (Option Corr)) (i : Nat) (ev : Event) (t : Nat)
    (h21 : ¬ ev.event_id = "21")
    (hoff : ¬ (ev.event_id = "24" ∨ ev.event_id = "4634")) :
    handleEvent ⟨ss, some cs, la, co⟩ i ev t
      = ⟨ss, some { cs with events := cs.events ++ [i] }, la,
         co.set i (some Corr.in_session)⟩ := by
  simp [handleEvent, h21, hoff]

/-- The event dispatch preserves well-formedness: any session it closes
gets end_time = the current event's time, which bounds the open session's
start_time from above. -/
theorem handleEvent_inv (st : BState) (i : Nat) (ev : Event) (t : Nat)
    (hgood : ∀ s ∈ st.sessions, goodSession s)
    (hlast : st.last = some t)
    (hcur : ∀ cs, st.current = some cs → cs.start_time ≤ t) :
    InvB (handleEvent st i ev t) ∧ (handleEvent st i ev t).last = some t := by
  obtain ⟨ss, cur, la, co⟩ := st
  by_cases h21 : ev.event_id = "21"
  · cases cur with
    | none =>
        rw [handleEvent_21_none ss la co i ev t h21]
        refine ⟨⟨hgood, ?_⟩, hlast⟩
        intro cs h
        injection h with h
        subst h
        exact ⟨t, hlast, Nat.le_refl t⟩
    | some cs =>
        rw [handleEvent_21_some ss cs la co i ev t h21]
        refine ⟨⟨?_, ?_⟩, hlast⟩
        · intro s hs
          rcases List.mem_append.mp hs with h | h
          · exact hgood s h
          · simp only [List.mem_singleton] at h
            subst h
            exact ⟨⟨t, rfl, hcur cs rfl⟩, "overlapping_session_start", rfl,
              by simp [endReasons]⟩
        · intro cs' h
          injection h with h
          subst h
          exact ⟨t, hlast, Nat.le_refl t⟩
  · cases cur with
    | none =>
        rw [handleEvent_other_none ss la co i ev t h21]
        exact ⟨⟨hgood, fun cs h => by cases h⟩, hlast⟩
    | some cs =>
        by_cases hoff : ev.event_id = "24" ∨ ev.event_id = "4634"
        · rw [handleEvent_logoff ss cs la co i ev t h21 hoff]
          refine ⟨⟨?_, fun _ h => by cases h⟩, hlast⟩
          intro s hs
          rcases List.mem_append.mp hs with h | h
          · exact hgood s h
          · simp only [List.mem_singleton] at h
            subst h
            exact ⟨⟨t, rfl, hcur cs rfl⟩, "explicit_logoff", rfl, by simp [endReasons]⟩
        · rw [handleEvent_attach ss cs la co i ev t h21 hoff]
          refine ⟨⟨hgood, ?_⟩, hlast⟩
          intro cs' h
          injection h with h
          subst h
          exact ⟨t, hlast, hcur cs rfl⟩

/-- One loop iteration on a timestamped event preserves the builder
invariant when the event does not precede last_event_time, and records
the event's time as the new last_event_time. -/
theorem sessStep_inv (st : BState) (i : Nat) (ev : Event) (t : Nat)
    (hInv : InvB st) (ht : ev.parsed_time = some t)
    (hle : ∀ lt, st.last = some lt → lt ≤ t) :
    InvB (sessStep st i ev) ∧ (sessStep st i ev).last = some t := by
  have hunfold : sessStep st i ev
      = handleEvent { inactivityClose st t with last := some t } i ev t := by
    simp [sessStep, ht]
  obtain ⟨hgood1, hlast1, hcur1⟩ := inactivityClose_inv st t hInv
  rw [hunfold]
  exact handleEvent_inv { inactivityClose st t with last := some t } i ev t
    hgood1 rfl
    (fun cs h => by
      obtain ⟨lt, hlt, hstart⟩ := hInv.2 cs (hcur1 cs h)
      exact Nat.le_trans hstart (hle lt hlt))

/-- The session scan preserves the builder invariant over any indexed
event list that is sorted by key and does not go below the recorded
last_event_time. -/
theorem sessRun_inv :
    ∀ (l : List (Nat × Event)) (st : BState),
      InvB st →
      List.Pairwise (fun p q : Nat × Event => sortKey p.2 ≤ sortKey q.2) l →
      (∀ lt, st.last = some lt → ∀ p ∈ l, lt ≤ sortKey p.2) →
      InvB (sessRun st l) := by
  intro l
  induction l with
  | nil => intro st h _ _; exact h
  | cons p rest ih =>
      intro st hInv hpw hle
      obtain ⟨hhead, htail⟩ := List.pairwise_cons.mp hpw
      show InvB (sessRun (sessStep st p.1 p.2) rest)
      cases ht : p.2.parsed_time with
      | none =>
          rw [sessStep_none_eq st p.1 p.2 ht]
          exact ih st hInv htail (fun lt h q hq => hle lt h q (List.mem_cons_of_mem p hq))
      | some t =>
          have hkey : sortKey p.2 = t := by simp [sortKey, ht]
          have hstep := sessStep_inv st p.1 p.2 t hInv ht
            (fun lt h => by
              have := hle lt h p (List.mem_cons_self p rest)
              omega)
          refine ih (sessStep st p.1 p.2) hstep.1 htail ?_
          intro lt h q hq
          rw [hstep.2] at h
          injection h with h
          subst h
          have := hhead q hq
          omega

/-- The end-of-log close emits only well-formed sessions. -/
theorem closeTail_good (st : BState) (hInv : InvB st) :
    ∀ s ∈ (closeTail st).sessions, goodSession s := by
  unfold closeTail
  cases hc : st.current with
  | none => exact hInv.1
  | some cs =>
      intro s hs
      rcases List.mem_append.mp hs with h | h
      · exact hInv.1 s h
      · simp only [List.mem_singleton] at h
        subst h
        obtain ⟨lt, hlt, hstart⟩ := hInv.2 cs hc
        exact ⟨⟨lt, by simp [hlt], hstart⟩, "session_open_at_log_end", rfl,
          by simp [endReasons]⟩

/-- Enumeration keeps pairwise order of the underlying elements. -/
theorem pairwise_enumFrom_snd {α : Type} (R : α → α → Prop) :
    ∀ (l : List α) (n : Nat), List.Pairwise R l →
      List.Pairwise (fun p q : Nat × α => R p.2 q.2) (l.enumFrom n) := by
  intro l
  induction l with
  | nil => intro n _; exact List.Pairwise.nil
  | cons a l ih =>
      intro n h
      obtain ⟨ha, hl⟩ := List.pairwise_cons.mp h
      rw [List.enumFrom_cons]
      refine List.pairwise_cons.mpr ⟨?_, ih (n + 1) hl⟩
      intro q hq
      have hq2 : q.2 ∈ l := by
        have hmap : (l.enumFrom (n + 1)).map Prod.snd = l := List.enumFrom_map_snd _ l
        rw [← hmap]
        exact List.mem_map_of_mem Prod.snd hq
      exact ha q.2 hq2

/-- C8: on a sorted timeline every session returned by build_sessions is
closed and well-formed: end_time is set, start_time does not exceed it,
and end_reason is exactly one of explicit_logoff,
overlapping_session_start, inactivity_timeout, session_open_at_log_end. -/
theorem claim_C8 (timeline : List Event) (hs : List.Sorted keyLE timeline) :
    ∀ s ∈ (build_sessions timeline).1,
      (∃ e, s.end_time = some e ∧ s.start_time ≤ e)
      ∧ ∃ r, s.end_reason = some r ∧ r ∈ endReasons := by
  intro s hmem
  have hInv0 : InvB (initState timeline) :=
    ⟨fun s h => absurd h (List.not_mem_nil s), fun cs h => by simp [initState] at h⟩
  have hpw : List.Pairwise (fun p q : Nat × Event => sortKey p.2 ≤ sortKey q.2)
      timeline.enum := by
    have := pairwise_enumFrom_snd keyLE timeline 0 hs
    exact this.imp (fun h => h)
  have hInv : InvB (session_phase timeline) :=
    sessRun_inv timeline.enum (initState timeline) hInv0 hpw
      (fun lt h => by simp [initState] at h)
  have hfold : List.Forall₂ (sessExt timeline)
      (closeTail (session_phase timeline)).sessions (build_sessions timeline).1 :=
    graceFold_ext timeline (dfirList timeline)
      ((closeTail (session_phase timeline)).sessions,
       (closeTail (session_phase timeline)).corrs)
      (fun _ hp => hp)
  obtain ⟨s0, hs0mem, hrel⟩ := forall2_sessExt_mem_right hfold s hmem
  have hgood : goodSession s0 := closeTail_good (session_phase timeline) hInv s0 hs0mem
  obtain ⟨⟨e, he, hse⟩, r, hr, hrmem⟩ := hgood
  obtain ⟨f1, f2, f3, f4, _, _, _⟩ := hrel
  exact ⟨⟨e, by rw [f2, he], by rw [f1]; exact hse⟩, r, by rw [f4, hr], hrmem⟩

/-- Witness for C8, Scenario A: the sorted timeline [21@1000, 4624@1001,
24@1010] yields one session, closed at 1010 by explicit_logoff, and
well-formed. -/
theorem claim_C8_witness :
    List.Sorted keyLE [exStart, exLogon, exLogoff]
    ∧ ((∃ e, (Session.mk 1000 (some 1010) "lsm_session_start" (some "explicit_logoff")
          none none [0, 1, 2]).end_time = some e
        ∧ (Session.mk 1000 (some 1010) "lsm_session_start" (some "explicit_logoff")
          none none [0, 1, 2]).start_time ≤ e)
       ∧ ∃ r, (Session.mk 1000 (some 1010) "lsm_session_start" (some "explicit_logoff")
          none none [0, 1, 2]).end_reason = some r ∧ r ∈ endReasons) :=
  ⟨by decide,
   claim_C8 [exStart, exLogon, exLogoff] (by decide)
     (Session.mk 1000 (some 1010) "lsm_session_start" (some "explicit_logoff")
       none none [0, 1, 2])
     (by decide)⟩

/-- The inactivity check never changes the total number of sessions (open
one included): it only moves the open session into the output. -/
theorem inactivityClose_len (st : BState) (t : Nat) :
    stLen (inactivityClose st t) = stLen st := by
  obtain ⟨ss, cur, la, co⟩ := st
  cases cur with
  | none => cases la <;> rfl
  | some cs =>
      cases la with
      | none => rfl
      | some lt =>
          by_cases hgap : t - lt > INACTIVITY_TIMEOUT <;>
            simp [inactivityClose, hgap, stLen]

/-- The event dispatch adds exactly one session (open or closed) when and
only when the event is the start marker. -/
theorem handleEvent_len (st : BState) (i : Nat) (ev : Event) (t : Nat) :
    stLen (handleEvent st i ev t) = stLen st + (if ev.event_id = "21" then 1 else 0) := by
  obtain ⟨ss, cur, la, co⟩ := st
  by_cases h21 : ev.event_id = "21"
  · cases cur with
    | none => rw [handleEvent_21_none ss la co i ev t h21]; simp [stLen, h21]
    | some cs => rw [handleEvent_21_some ss cs la co i ev t h21]; simp [stLen, h21]
  · cases cur with
    | none => rw [handleEvent_other_none ss la co i ev t h21]; simp [stLen, h21]
    | some cs =>
        by_cases hoff : ev.event_id = "24" ∨ ev.event_id = "4634"
        · rw [handleEvent_logoff ss cs la co i ev t h21 hoff]; simp [stLen, h21]
        · rw [handleEvent_attach ss cs la co i ev t h21 hoff]; simp [stLen, h21]

/-- One loop iteration adds a session exactly for timestamped start
markers. -/
theorem sessStep_len (st : BState) (i : Nat) (ev : Event) :
    stLen (sessStep st i ev)
      = stLen st
        + (if (ev.event_id == "21" && ev.parsed_time.isSome) = true then 1 else 0) := by
  cases ht : ev.parsed_time with
  | none => rw [sessStep_none_eq st i ev ht]; simp [ht]
  | some t =>
      have hunfold : sessStep st i ev
          = handleEvent { inactivityClose st t with last := some t } i ev t := by
        simp [sessStep, ht]
      rw [hunfold, handleEvent_len]
      have h1 : stLen { inactivityClose st t with last := some t }
          = stLen (inactivityClose st t) := rfl
      rw [h1, inactivityClose_len]
      by_cases h21 : ev.event_id = "21" <;> simp [h21, ht]

/-- The scan counts exactly the timestamped start markers. -/
theorem sessRun_len :
    ∀ (l : List (Nat × Event)) (st : BState),
      stLen (sessRun st l)
        = stLen st
          + List.countP (fun p => p.2.event_id == "21" && p.2.parsed_time.isSome) l := by
  intro l
  induction l with
  | nil => intro st; simp [sessRun]
  | cons p rest ih =>
      intro st
      show stLen (sessRun (sessStep st p.1 p.2) rest) = _
      rw [ih, sessStep_len, List.countP_cons]
      by_cases h : (p.2.event_id == "21" && p.2.parsed_time.isSome) = true <;>
        simp [h] <;> omega

/-- The end-of-log close turns the session total into the output list's
length. -/
theorem closeTail_len (st : BState) :
    (closeTail st).sessions.length = stLen st := by
  obtain ⟨ss, cur, la, co⟩ := st
  cases cur <;> simp [closeTail, stLen]

/-- Counting over an enumeration equals counting over the list. -/
theorem countP_enumFrom_snd {α : Type} (q : α → Bool) :
    ∀ (l : List α) (n : Nat),
      List.countP (fun p : Nat × α => q p.2) (l.enumFrom n) = List.countP q l := by
  intro l
  induction l with
  | nil => intro n; rfl
  | cons a l ih =>
      intro n
      rw [List.enumFrom_cons, List.countP_cons, List.countP_cons, ih]

/-- C4 (amended): each start-marker event that carries a parsed timestamp
opens exactly one session — the length of the session list returned by
build_sessions equals the number of timestamped events with id "21" in
the timeline; untimestamped start markers are skipped. -/
theorem claim_C4_amended (timeline : List Event) :
    (build_sessions timeline).1.length
      = (timeline.filter (fun ev => ev.event_id == "21" && ev.parsed_time.isSome)).length :=
  calc (build_sessions timeline).1.length
      = (closeTail (session_phase timeline)).sessions.length :=
        (graceFold_ext timeline (dfirList timeline)
          ((closeTail (session_phase timeline)).sessions,
           (closeTail (session_phase timeline)).corrs)
          (fun _ hp => hp)).length_eq.symm
    _ = stLen (session_phase timeline) := closeTail_len _
    _ = stLen (initState timeline)
        + List.countP (fun p : Nat × Event => p.2.event_id == "21" && p.2.parsed_time.isSome)
            timeline.enum := sessRun_len timeline.enum (initState timeline)
    _ = List.countP (fun ev : Event => ev.event_id == "21" && ev.parsed_time.isSome)
          timeline := by
        have h := countP_enumFrom_snd
          (fun ev : Event => ev.event_id == "21" && ev.parsed_time.isSome) timeline 0
        simpa [initState, stLen, List.enum] using h
    _ = (timeline.filter (fun ev => ev.event_id == "21" && ev.parsed_time.isSome)).length :=
        List.countP_eq_length_filter _ _

/-- Occurrence counting distributes over appending one session. -/
theorem occCount_append_single (ss : List Session) (s : Session) (j : Nat) :
    occCount (ss ++ [s]) j = occCount ss j + s.events.count j := by
  simp [occCount]

/-- Occurrence counting unfolds on a cons cell. -/
theorem occCount_cons (s : Session) (ss : List Session) (j : Nat) :
    occCount (s :: ss) j = s.events.count j + occCount ss j := by
  simp [occCount]

/-- The inactivity check moves events around but never duplicates them. -/
theorem inactivityClose_count (st : BState) (t j : Nat) :
    stCount (inactivityClose st t) j = stCount st j := by
  obtain ⟨ss, cur, la, co⟩ := st
  cases cur with
  | none => cases la <;> rfl
  | some cs =>
      cases la with
      | none => rfl
      | some lt =>
          by_cases hgap : t - lt > INACTIVITY_TIMEOUT <;>
            simp [inactivityClose, hgap, stCount, occCount, closeWith]

/-- The event dispatch introduces at most one new occurrence, and only of
the current event's index. -/
theorem handleEvent_count (st : BState) (i : Nat) (ev : Event) (t j : Nat) :
    stCount (handleEvent st i ev t) j ≤ stCount st j + (if j = i then 1 else 0) := by
  obtain ⟨ss, cur, la, co⟩ := st
  by_cases h21 : ev.event_id = "21"
  · cases cur with
    | none =>
        rw [handleEvent_21_none ss la co i ev t h21]
        by_cases hji : j = i <;>
          simp [stCount, List.count_cons, List.count_nil, hji]
    | some cs =>
        rw [handleEvent_21_some ss cs la co i ev t h21]
        by_cases hji : j = i <;>
          simp [stCount, occCount_append_single, closeWith, List.count_cons,
            List.count_nil, hji] <;> omega
  · cases cur with
    | none =>
        rw [handleEvent_other_none ss la co i ev t h21]
        exact Nat.le_add_right _ _
    | some cs =>
        by_cases hoff : ev.event_id = "24" ∨ ev.event_id = "4634"
        · rw [handleEvent_logoff ss cs la co i ev t h21 hoff]
          by_cases hji : j = i <;>
            simp [stCount, occCount_append_single, closeWith, List.count_append,
              List.count_cons, List.count_nil, hji] <;> omega
        · rw [handleEvent_attach ss cs la co i ev t h21 hoff]
          by_cases hji : j = i <;>
            simp [stCount, List.count_append, List.count_cons, List.count_nil, hji] <;>
            omega

/-- One loop iteration introduces at most one occurrence of its own
index. -/
theorem sessStep_count (st : BState) (i : Nat) (ev : Event) (j : Nat) :
    stCount (sessStep st i ev) j ≤ stCount st j + (if j = i then 1 else 0) := by
  cases ht : ev.parsed_time with
  | none =>
      rw [sessStep_none_eq st i ev ht]
      exact Nat.le_add_right _ _
  | some t =>
      have hunfold : sessStep st i ev
          = handleEvent { inactivityClose st t with last := some t } i ev t := by
        simp [sessStep, ht]
      rw [hunfold]
      calc stCount (handleEvent { inactivityClose st t with last := some t } i ev t) j
          ≤ stCount { inactivityClose st t with last := some t } j
            + (if j = i then 1 else 0) := handleEvent_count _ i ev t j
        _ = stCount (inactivityClose st t) j + (if j = i then 1 else 0) := rfl
        _ = stCount st j + (if j = i then 1 else 0) := by rw [inactivityClose_count]

/-- Over distinct indices, the whole scan gives each index at most one
occurrence beyond what the starting state already had. -/
theorem sessRun_count :
    ∀ (l : List (Nat × Event)) (st : BState) (j : Nat),
      (l.map Prod.fst).Nodup →
      stCount (sessRun st l) j ≤ stCount st j + (if j ∈ l.map Prod.fst then 1 else 0) := by
  intro l
  induction l with
  | nil =>
      intro st j _
      exact Nat.le_add_right _ _
  | cons p rest ih =>
      intro st j hnd
      simp only [List.map_cons, List.nodup_cons] at hnd
      obtain ⟨hpnot, hndrest⟩ := hnd
      have h1 := sessStep_count st p.1 p.2 j
      have h2 := ih (sessStep st p.1 p.2) j hndrest
      show stCount (sessRun (sessStep st p.1 p.2) rest) j ≤ _
      by_cases hjp : j = p.1
      · have hjm : ¬ j ∈ rest.map Prod.fst := by rw [hjp]; exact hpnot
        rw [if_pos hjp] at h1
        rw [if_neg hjm] at h2
        have hmem : j ∈ (p :: rest).map Prod.fst := by
          rw [List.map_cons]
          exact List.mem_cons.mpr (Or.inl hjp)
        rw [if_pos hmem]
        omega
      · rw [if_neg hjp] at h1
        by_cases hjm : j ∈ rest.map Prod.fst
        · rw [if_pos hjm] at h2
          have hmem : j ∈ (p :: rest).map Prod.fst := by
            rw [List.map_cons]
            exact List.mem_cons.mpr (Or.inr hjm)
          rw [if_pos hmem]
          omega
        · rw [if_neg hjm] at h2
          have hmem : ¬ j ∈ (p :: rest).map Prod.fst := by
            rw [List.map_cons]
            intro hin
            rcases List.mem_cons.mp hin with h | h
            · exact hjp h
            · exact hjm h
          rw [if_neg hmem]
          omega

/-- The end-of-log close preserves occurrence counts. -/
theorem closeTail_count (st : BState) (j : Nat) :
    occCount (closeTail st).sessions j = stCount st j := by
  obtain ⟨ss, cur, la, co⟩ := st
  cases cur <;> simp [closeTail, stCount, occCount]

/-- The inner grace loop appends at most one occurrence of its own
index. -/
theorem graceAttachOne_count (i t j : Nat) :
    ∀ ss : List Session,
      occCount (graceAttachOne ss i t).1 j ≤ occCount ss j + (if j = i then 1 else 0) := by
  intro ss
  induction ss with
  | nil => exact Nat.le_add_right _ _
  | cons s rest ih =>
      by_cases hw : windowP s t
      · have hred : (graceAttachOne (s :: rest) i t).1
            = { s with events := s.events ++ [i] } :: rest := by
          simp [graceAttachOne, hw]
        rw [hred, occCount_cons, occCount_cons]
        by_cases hji : j = i <;>
          simp [List.count_append, List.count_cons, List.count_nil, hji] <;> omega
      · have hred : (graceAttachOne (s :: rest) i t).1
            = s :: (graceAttachOne rest i t).1 := by
          simp [graceAttachOne, hw]
        rw [hred, occCount_cons, occCount_cons]
        have := ih
        omega

/-- One outer grace iteration appends at most one occurrence of its own
index. -/
theorem graceStep_count (acc : List Session × List (Option Corr)) (p : Nat × Event)
    (j : Nat) :
    occCount (graceStep acc p).1 j ≤ occCount acc.1 j + (if j = p.1 then 1 else 0) := by
  cases ht : p.2.parsed_time with
  | none =>
      have hid : graceStep acc p = acc := by simp [graceStep, ht]
      rw [hid]
      exact Nat.le_add_right _ _
  | some t =>
      have h := graceAttachOne_count p.1 t j acc.1
      rcases hres : graceAttachOne acc.1 p.1 t with ⟨ss, c⟩
      rw [hres] at h
      cases c <;> simp only [graceStep, ht, hres] <;> exact h

/-- Over distinct indices, the grace fold gives each index at most one
extra occurrence. -/
theorem graceFold_count :
    ∀ (l : List (Nat × Event)) (acc : List Session × List (Option Corr)) (j : Nat),
      (l.map Prod.fst).Nodup →
      occCount (l.foldl graceStep acc).1 j
        ≤ occCount acc.1 j + (if j ∈ l.map Prod.fst then 1 else 0) := by
  intro l
  induction l with
  | nil =>
      intro acc j _
      exact Nat.le_add_right _ _
  | cons p rest ih =>
      intro acc j hnd
      simp only [List.map_cons, List.nodup_cons] at hnd
      obtain ⟨hpnot, hndrest⟩ := hnd
      have h1 := graceStep_count acc p j
      have h2 := ih (graceStep acc p) j hndrest
      rw [List.foldl_cons]
      by_cases hjp : j = p.1
      · have hjm : ¬ j ∈ rest.map Prod.fst := by rw [hjp]; exact hpnot
        rw [if_pos hjp] at h1
        rw [if_neg hjm] at h2
        have hmem : j ∈ (p :: rest).map Prod.fst := by
          rw [List.map_cons]
          exact List.mem_cons.mpr (Or.inl hjp)
        rw [if_pos hmem]
        omega
      · rw [if_neg hjp] at h1
        by_cases hjm : j ∈ rest.map Prod.fst
        · rw [if_pos hjm] at h2
          have hmem : j ∈ (p :: rest).map Prod.fst := by
            rw [List.map_cons]
            exact List.mem_cons.mpr (Or.inr hjm)
          rw [if_pos hmem]
          omega
        · rw [if_neg hjm] at h2
          have hmem : ¬ j ∈ (p :: rest).map Prod.fst := by
            rw [List.map_cons]
            intro hin
            rcases List.mem_cons.mp hin with h | h
            · exact hjp h
            · exact hjm h
          rw [if_neg hmem]
          omega

/-- The enumeration of the timeline has pairwise-distinct indices. -/
theorem nodup_enum_fst (timeline : List Event) :
    (timeline.enum.map Prod.fst).Nodup := by
  rw [List.enum_map_fst]
  exact List.nodup_range _

/-- The DFIR selection keeps pairwise-distinct indices. -/
theorem nodup_dfir_fst (timeline : List Event) :
    ((dfirList timeline).map Prod.fst).Nodup :=
  List.Nodup.sublist (List.Sublist.map Prod.fst (List.filter_sublist _))
    (nodup_enum_fst timeline)

/-- An index selected by the DFIR filter denotes a DFIR event of the
timeline. -/
theorem mem_dfir_fst {timeline : List Event} {j : Nat}
    (h : j ∈ (dfirList timeline).map Prod.fst) :
    ∃ ev, timeline[j]? = some ev ∧ inDfir ev = true := by
  obtain ⟨p, hp, hpj⟩ := List.mem_map.mp h
  obtain ⟨hmem, hdf⟩ := List.mem_filter.mp hp
  subst hpj
  exact ⟨p.2, List.mem_enum_iff_getElem?.mp hmem, hdf⟩

/-- After the builder scan every index occurs at most once across the
state's member lists. -/
theorem session_phase_count (timeline : List Event) (j : Nat) :
    stCount (session_phase timeline) j ≤ 1 := by
  have h := sessRun_count timeline.enum (initState timeline) j (nodup_enum_fst timeline)
  have h0 : stCount (initState timeline) j = 0 := rfl
  rw [h0] at h
  show stCount (sessRun (initState timeline) timeline.enum) j ≤ 1
  by_cases hm : j ∈ timeline.enum.map Prod.fst
  · rw [if_pos hm] at h
    omega
  · rw [if_neg hm] at h
    omega

/-- C1 (amended): after the session-building scan no event record occurs
more than once across all sessions' member lists; the grace pass may
append each timestamped DFIR event once more — possibly to a session
already holding it, duplicating it there — so after build_sessions an
event occurs at most twice in total, and still at most once whenever its
timeline position does not hold a DFIR event. -/
theorem claim_C1_amended (timeline : List Event) (j : Nat) :
    occCount (closeTail (session_phase timeline)).sessions j ≤ 1
    ∧ occCount (build_sessions timeline).1 j ≤ 2
    ∧ ((∀ ev, timeline[j]? = some ev → inDfir ev = false) →
        occCount (build_sessions timeline).1 j ≤ 1) := by
  have hbuilder : occCount (closeTail (session_phase timeline)).sessions j ≤ 1 := by
    rw [closeTail_count]
    exact session_phase_count timeline j
  have hbs : (build_sessions timeline).1
      = ((dfirList timeline).foldl graceStep
          ((closeTail (session_phase timeline)).sessions,
           (closeTail (session_phase timeline)).corrs)).1 := rfl
  have hfold := graceFold_count (dfirList timeline)
    ((closeTail (session_phase timeline)).sessions,
     (closeTail (session_phase timeline)).corrs) j (nodup_dfir_fst timeline)
  have hpair : ((closeTail (session_phase timeline)).sessions,
      (closeTail (session_phase timeline)).corrs).1
      = (closeTail (session_phase timeline)).sessions := rfl
  rw [hpair] at hfold
  refine ⟨hbuilder, ?_, ?_⟩
  · rw [hbs]
    by_cases hm : j ∈ (dfirList timeline).map Prod.fst
    · rw [if_pos hm] at hfold
      omega
    · rw [if_neg hm] at hfold
      omega
  · intro hnd
    have hnotin : ¬ j ∈ (dfirList timeline).map Prod.fst := by
      intro hmem
      obtain ⟨ev, hev, hdf⟩ := mem_dfir_fst hmem
      rw [hnd ev hev] at hdf
      cases hdf
    rw [if_neg hnotin] at hfold
    rw [hbs]
    omega

/-- Witness for C1 (amended) on the two-event timeline [21@1000,
4624@1001]: the logon event is not a DFIR event, so it occurs at most
once; by direct evaluation it occurs exactly once. -/
theorem claim_C1_witness :
    (∀ ev, ([exStart, exLogon] : List Event)[1]? = some ev → inDfir ev = false)
    ∧ occCount (build_sessions [exStart, exLogon]).1 1 ≤ 1
    ∧ occCount (build_sessions [exStart, exLogon]).1 1 = 1 :=
  ⟨fun ev hev => by injection hev with h; rw [← h]; rfl,
   (claim_C1_amended [exStart, exLogon] 1).2.2
     (fun ev hev => by injection hev with h; rw [← h]; rfl),
   by decide⟩

/-- The inactivity check never touches the correlation tags. -/
theorem inactivityClose_corrs (st : BState) (t : Nat) :
    (inactivityClose st t).corrs = st.corrs := by
  obtain ⟨ss, cur, la, co⟩ := st
  cases cur with
  | none => cases la <;> rfl
  | some cs =>
      cases la with
      | none => rfl
      | some lt =>
          by_cases hgap : t - lt > INACTIVITY_TIMEOUT <;> simp [inactivityClose, hgap]

/-- The event dispatch either leaves the tags alone or writes in_session
at the current index. -/
theorem handleEvent_corrs (st : BState) (i : Nat) (ev : Event) (t : Nat) :
    (handleEvent st i ev t).corrs = st.corrs
    ∨ (handleEvent st i ev t).corrs = st.corrs.set i (some Corr.in_session) := by
  obtain ⟨ss, cur, la, co⟩ := st
  by_cases h21 : ev.event_id = "21"
  · cases cur with
    | none => right; rw [handleEvent_21_none ss la co i ev t h21]
    | some cs => right; rw [handleEvent_21_some ss cs la co i ev t h21]
  · cases cur with
    | none => left; rw [handleEvent_other_none ss la co i ev t h21]
    | some cs =>
        by_cases hoff : ev.event_id = "24" ∨ ev.event_id = "4634"
        · right; rw [handleEvent_logoff ss cs la co i ev t h21 hoff]
        · right; rw [handleEvent_attach ss cs la co i ev t h21 hoff]

/-- One loop iteration either leaves the tags alone or writes in_session
at its own index. -/
theorem sessStep_corrs (st : BState) (i : Nat) (ev : Event) :
    (sessStep st i ev).corrs = st.corrs
    ∨ (sessStep st i ev).corrs = st.corrs.set i (some Corr.in_session) := by
  cases ht : ev.parsed_time with
  | none => left; rw [sessStep_none_eq st i ev ht]
  | some t =>
      have hunfold : sessStep st i ev
          = handleEvent { inactivityClose st t with last := some t } i ev t := by
        simp [sessStep, ht]
      have hco : ({ inactivityClose st t with last := some t } : BState).corrs
          = st.corrs := inactivityClose_corrs st t
      rcases handleEvent_corrs { inactivityClose st t with last := some t } i ev t
        with h | h
      · left; rw [hunfold, h, hco]
      · right; rw [hunfold, h, hco]

/-- Throughout the builder scan, every tag is still unset or in_session. -/
theorem sessRun_corrs_only :
    ∀ (l : List (Nat × Event)) (st : BState),
      (∀ c ∈ st.corrs, c = none ∨ c = some Corr.in_session) →
      ∀ c ∈ (sessRun st l).corrs, c = none ∨ c = some Corr.in_session := by
  intro l
  induction l with
  | nil => intro st h; exact h
  | cons p rest ih =>
      intro st h
      refine ih (sessStep st p.1 p.2) ?_
      intro c hc
      rcases sessStep_corrs st p.1 p.2 with hs | hs
      · exact h c (hs ▸ hc)
      · rw [hs] at hc
        rcases List.mem_or_eq_of_mem_set hc with hcm | hce
        · exact h c hcm
        · right; rw [hce]

/-- The end-of-log close never touches the correlation tags. -/
theorem closeTail_corrs (st : BState) :
    (closeTail st).corrs = st.corrs := by
  obtain ⟨ss, cur, la, co⟩ := st
  cases cur <;> rfl

/-- The tag produced by the inner grace loop, when any, is a grace tag. -/
theorem graceAttachOne_tag (i t : Nat) :
    ∀ (ss : List Session) (c : Corr), (graceAttachOne ss i t).2 = some c →
      c = Corr.grace_before ∨ c = Corr.grace_after := by
  intro ss
  induction ss with
  | nil => intro c h; simp [graceAttachOne] at h
  | cons s rest ih =>
      intro c h
      by_cases hw : windowP s t
      · have hred : (graceAttachOne (s :: rest) i t).2
            = some (if t < s.start_time then Corr.grace_before else Corr.grace_after) := by
          simp [graceAttachOne, hw]
        rw [hred] at h
        injection h with h
        by_cases hlt : t < s.start_time
        · left; rw [← h, if_pos hlt]
        · right; rw [← h, if_neg hlt]
      · have hred : (graceAttachOne (s :: rest) i t).2
            = (graceAttachOne rest i t).2 := by
          simp [graceAttachOne, hw]
        rw [hred] at h
        exact ih c h

/-- One outer grace iteration either leaves the tags alone or writes a
grace tag at its own index. -/
theorem graceStep_corrs (acc : List Session × List (Option Corr)) (p : Nat × Event) :
    (graceStep acc p).2 = acc.2
    ∨ ∃ c, (c = Corr.grace_before ∨ c = Corr.grace_after)
        ∧ (graceStep acc p).2 = acc.2.set p.1 (some c) := by
  cases ht : p.2.parsed_time with
  | none => left; simp [graceStep, ht]
  | some t =>
      rcases hres : graceAttachOne acc.1 p.1 t with ⟨ss, c⟩
      cases c with
      | none => left; simp [graceStep, ht, hres]
      | some c0 =>
          right
          refine ⟨c0, graceAttachOne_tag p.1 t acc.1 c0 (by rw [hres]), ?_⟩
          simp [graceStep, ht, hres]

/-- Pointwise, the grace fold either leaves a tag exactly as the builder
set it, or the index belongs to a folded DFIR pair and ends with a grace
tag. -/
theorem graceFold_corrs :
    ∀ (l : List (Nat × Event)) (acc : List Session × List (Option Corr)) (j : Nat),
      (l.foldl graceStep acc).2[j]? = acc.2[j]?
      ∨ ((∃ ev, (j, ev) ∈ l)
          ∧ ((l.foldl graceStep acc).2[j]? = some (some Corr.grace_before)
             ∨ (l.foldl graceStep acc).2[j]? = some (some Corr.grace_after))) := by
  intro l
  induction l with
  | nil => intro acc j; left; rfl
  | cons p rest ih =>
      intro acc j
      rw [List.foldl_cons]
      rcases ih (graceStep acc p) j with h | ⟨⟨ev, hev⟩, htag⟩
      · rcases graceStep_corrs acc p with hs | ⟨c, hc, hs⟩
        · left; rw [h, hs]
        · by_cases hjp : j = p.1
          · by_cases hlen : p.1 < acc.2.length
            · right
              refine ⟨⟨p.2, ?_⟩, ?_⟩
              · rw [hjp]
                exact List.mem_cons.mpr (Or.inl (Prod.mk.eta).symm)
              · have : (rest.foldl graceStep (graceStep acc p)).2[j]?
                    = some (some c) := by
                  rw [h, hs, hjp, List.getElem?_set]
                  simp [hlen]
                rcases hc with hc | hc
                · left; rw [this, hc]
                · right; rw [this, hc]
            · left
              rw [h, hs, hjp, List.getElem?_set]
              have hnone : acc.2[p.1]? = none :=
                List.getElem?_eq_none (Nat.le_of_not_lt hlen)
              simp [hlen, hnone]
          · left
            rw [h, hs, List.getElem?_set_ne (fun he => hjp he.symm)]
      · right
        exact ⟨⟨ev, List.mem_cons_of_mem p hev⟩, htag⟩

/-- C2 (amended): the session builder writes only in_session tags; a tag
can change after the builder phase only at the position of a DFIR event
of the timeline, and then only because the final grace pass rewrote it to
grace_before or grace_after — in particular a tag set by the grace pass
itself, being last, is never overwritten. -/
theorem claim_C2_amended (timeline : List Event) (j : Nat) :
    (∀ c, (closeTail (session_phase timeline)).corrs[j]? = some (some c) →
      c = Corr.in_session)
    ∧ ((build_sessions timeline).2[j]? ≠ (closeTail (session_phase timeline)).corrs[j]? →
        ∃ ev, timeline[j]? = some ev ∧ inDfir ev = true
          ∧ ((build_sessions timeline).2[j]? = some (some Corr.grace_before)
             ∨ (build_sessions timeline).2[j]? = some (some Corr.grace_after))) := by
  constructor
  · intro c hc
    have hmem : (some c) ∈ (closeTail (session_phase timeline)).corrs :=
      List.getElem?_mem hc
    rw [closeTail_corrs] at hmem
    have honly := sessRun_corrs_only timeline.enum (initState timeline)
      (fun c0 hc0 => Or.inl (List.eq_of_mem_replicate hc0)) (some c) hmem
    rcases honly with h | h
    · exact Option.noConfusion h
    · exact Option.some.inj h
  · intro hne
    have hbs2 : (build_sessions timeline).2
        = ((dfirList timeline).foldl graceStep
            ((closeTail (session_phase timeline)).sessions,
             (closeTail (session_phase timeline)).corrs)).2 := rfl
    rcases graceFold_corrs (dfirList timeline)
        ((closeTail (session_phase timeline)).sessions,
         (closeTail (session_phase timeline)).corrs) j with h | ⟨⟨ev, hev⟩, htag⟩
    · rw [hbs2] at hne
      exact absurd h hne
    · obtain ⟨hmem, hdf⟩ := List.mem_filter.mp hev
      refine ⟨ev, List.mem_enum_iff_getElem?.mp hmem, hdf, ?_⟩
      rw [hbs2]
      exact htag

/-- Witness for C2 (amended) on [21@1000, 4732@1001]: position 1 holds a
DFIR event whose tag differs after the grace pass — it was rewritten to
grace_after. -/
theorem claim_C2_witness :
    ((build_sessions [exStart, exDfir]).2[1]?
       ≠ (closeTail (session_phase [exStart, exDfir])).corrs[1]?)
    ∧ ∃ ev, ([exStart, exDfir] : List Event)[1]? = some ev ∧ inDfir ev = true
        ∧ ((build_sessions [exStart, exDfir]).2[1]? = some (some Corr.grace_before)
           ∨ (build_sessions [exStart, exDfir]).2[1]? = some (some Corr.grace_after)) :=
  ⟨by decide, (claim_C2_amended [exStart, exDfir] 1).2 (by decide)⟩

/-- Witness for C4 (amended): on the one-event timeline holding only a
timestamped start marker, exactly one session is built. -/
theorem claim_C4_witness :
    (build_sessions [exStart]).1.length
      = ([exStart].filter (fun ev => ev.event_id == "21" && ev.parsed_time.isSome)).length
    ∧ (build_sessions [exStart]).1.length = 1 :=
  ⟨claim_C4_amended [exStart], by decide⟩
